import Mathlib

/-!
A shallow embedding of `demo_data_cleaning_pipeline.py`: the CSV extraction
loop of `clean_and_structure_data`, the field cleaners `_format_name`
(`str.strip` + `str.title`), `_standardize_date` (two `datetime.strptime`
patterns re-emitted through `strftime('%Y-%m-%d')`), `_standardize_location`
(`dict.get` over `LOCATION_CORRECTIONS`), and the quality-gate loop.
Strings are modelled over their ASCII fragment; exceptions escaping a call
are modelled by `Option` (`none` = the call raises).
-/

namespace DataCleaning

/-- ASCII whitespace, the fragment of the whitespace class used by Python's
`str.strip()` and by the regex class `\s` that is relevant here:
space, tab, newline, carriage return, vertical tab, form feed. -/
def pyIsSpace (c : Char) : Bool :=
  decide (c.toNat = 32 ∨ c.toNat = 9 ∨ c.toNat = 10 ∨ c.toNat = 13 ∨
    c.toNat = 11 ∨ c.toNat = 12)

/-- ASCII lower-casing of one character (Python `str.lower` on ASCII). -/
def pyLowerCh (c : Char) : Char :=
  if 65 ≤ c.toNat ∧ c.toNat ≤ 90 then Char.ofNat (c.toNat + 32) else c

/-- ASCII upper-casing of one character (Python `str.upper` on ASCII). -/
def pyUpperCh (c : Char) : Char :=
  if 97 ≤ c.toNat ∧ c.toNat ≤ 122 then Char.ofNat (c.toNat - 32) else c

/-- Is the character cased, i.e. an ASCII letter?  Python's `str.title`
puts word boundaries exactly at the non-cased characters. -/
def isCased (c : Char) : Bool :=
  decide ((65 ≤ c.toNat ∧ c.toNat ≤ 90) ∨ (97 ≤ c.toNat ∧ c.toNat ≤ 122))

/-- The decimal digit character for `n ≤ 9`. -/
def digitChar (n : Nat) : Char := Char.ofNat (48 + n)

/-- Python `str.strip()` on a character list: drop leading and trailing
whitespace. -/
def pyStripL (l : List Char) : List Char :=
  ((l.dropWhile pyIsSpace).reverse.dropWhile pyIsSpace).reverse

/-- `str.strip()` on strings. -/
def stripStr (s : String) : String := String.mk (pyStripL s.data)

/-- One pass of CPython's `str.title()` algorithm: walk the characters
keeping the flag "previous character was cased"; a cased character is
title-cased (upper-cased, for ASCII) when the previous character was not
cased and lower-cased otherwise; non-cased characters pass through. -/
def pyTitleAux : List Char → Bool → List Char
  | [], _ => []
  | c :: cs, prevCased =>
    (if isCased c then (if prevCased then pyLowerCh c else pyUpperCh c) else c)
      :: pyTitleAux cs (isCased c)

/-- Python `str.title()` on a character list. -/
def pyTitle (l : List Char) : List Char := pyTitleAux l false

/-- States of the CSV reading automaton (Python `csv.reader`, default
excel dialect: delimiter `,`, quote `"`, doubled quotes, non-strict). -/
inductive CsvSt
  | startRecord
  | startField
  | inField
  | inQuoted
  | quoteQuoted
deriving DecidableEq

/-- Close the current field accumulator (held in reverse) into a string. -/
def mkField (fld : List Char) : String := String.mk fld.reverse

/-- The CSV reading automaton.  `row` holds the completed fields of the
current record in reverse, `fld` the characters of the current field in
reverse.  A blank line yields the empty record `[]`; a line with a
trailing delimiter yields a trailing empty field; there is no record for
the empty text after a final newline. -/
def csvAux : CsvSt → List String → List Char → List Char → List (List String)
  | st, row, fld, [] =>
    match st with
    | .startRecord => []
    | .startField => [("" :: row).reverse]
    | .inField => [(mkField fld :: row).reverse]
    | .inQuoted => [(mkField fld :: row).reverse]
    | .quoteQuoted => [(mkField fld :: row).reverse]
  | st, row, fld, c :: cs =>
    match st with
    | .startRecord =>
      if c = '\n' then [] :: csvAux .startRecord [] [] cs
      else if c = ',' then csvAux .startField [""] [] cs
      else if c = '"' then csvAux .inQuoted [] [] cs
      else csvAux .inField [] [c] cs
    | .startField =>
      if c = '\n' then (("" :: row).reverse) :: csvAux .startRecord [] [] cs
      else if c = ',' then csvAux .startField ("" :: row) [] cs
      else if c = '"' then csvAux .inQuoted row [] cs
      else csvAux .inField row [c] cs
    | .inField =>
      if c = '\n' then ((mkField fld :: row).reverse) :: csvAux .startRecord [] [] cs
      else if c = ',' then csvAux .startField (mkField fld :: row) [] cs
      else csvAux .inField row (c :: fld) cs
    | .inQuoted =>
      if c = '"' then csvAux .quoteQuoted row fld cs
      else csvAux .inQuoted row (c :: fld) cs
    | .quoteQuoted =>
      if c = '"' then csvAux .inQuoted row ('"' :: fld) cs
      else if c = ',' then csvAux .startField (mkField fld :: row) [] cs
      else if c = '\n' then ((mkField fld :: row).reverse) :: csvAux .startRecord [] [] cs
      else csvAux .inField row (c :: fld) cs

/-- The row sequence `csv.reader(io.StringIO(s))` yields for `s`. -/
def csvRows (s : String) : List (List String) :=
  csvAux .startRecord [] [] s.data

/-- Ordered alternation: regex alternatives are tried left to right and the
first alternative whose continuation succeeds wins. -/
def oalt {α : Type} : Option α → Option α → Option α
  | some a, _ => some a
  | none, b => b

/-- Consume one expected literal character. -/
def expect (c : Char) : List Char → Option (List Char)
  | x :: rest => if x = c then some rest else none
  | [] => none

/-- Month alternative `1[0-2]` of strptime's `%m` class
`1[0-2]|0[1-9]|[1-9]` (codepoints: 49 is `1`, 48-50 are `0`-`2`). -/
def altM1 : List Char → Option (Nat × List Char)
  | c1 :: c2 :: rest =>
    if c1.toNat = 49 ∧ 48 ≤ c2.toNat ∧ c2.toNat ≤ 50 then
      some (10 + (c2.toNat - 48), rest)
    else none
  | _ => none

/-- Month alternative `0[1-9]`. -/
def altM2 : List Char → Option (Nat × List Char)
  | c1 :: c2 :: rest =>
    if c1.toNat = 48 ∧ 49 ≤ c2.toNat ∧ c2.toNat ≤ 57 then
      some (c2.toNat - 48, rest)
    else none
  | _ => none

/-- Month alternative `[1-9]`. -/
def altM3 : List Char → Option (Nat × List Char)
  | c1 :: rest =>
    if 49 ≤ c1.toNat ∧ c1.toNat ≤ 57 then some (c1.toNat - 48, rest) else none
  | [] => none

/-- Day alternative `3[01]` of strptime's `%d` class
`3[01]|[12]\d|0[1-9]|[1-9]`. -/
def altD1 : List Char → Option (Nat × List Char)
  | c1 :: c2 :: rest =>
    if c1.toNat = 51 ∧ 48 ≤ c2.toNat ∧ c2.toNat ≤ 49 then
      some (30 + (c2.toNat - 48), rest)
    else none
  | _ => none

/-- Day alternative `[12]\d`. -/
def altD2 : List Char → Option (Nat × List Char)
  | c1 :: c2 :: rest =>
    if (49 ≤ c1.toNat ∧ c1.toNat ≤ 50) ∧ (48 ≤ c2.toNat ∧ c2.toNat ≤ 57) then
      some (10 * (c1.toNat - 48) + (c2.toNat - 48), rest)
    else none
  | _ => none

/-- Day alternative `0[1-9]`. -/
def altD3 : List Char → Option (Nat × List Char)
  | c1 :: c2 :: rest =>
    if c1.toNat = 48 ∧ 49 ≤ c2.toNat ∧ c2.toNat ≤ 57 then
      some (c2.toNat - 48, rest)
    else none
  | _ => none

/-- Day alternative `[1-9]`. -/
def altD4 : List Char → Option (Nat × List Char)
  | c1 :: rest =>
    if 49 ≤ c1.toNat ∧ c1.toNat ≤ 57 then some (c1.toNat - 48, rest) else none
  | [] => none

/-- strptime's `%Y`: exactly four decimal digits. -/
def year4 : List Char → Option (Nat × List Char)
  | a :: b :: c :: d :: rest =>
    if (48 ≤ a.toNat ∧ a.toNat ≤ 57) ∧ (48 ≤ b.toNat ∧ b.toNat ≤ 57) ∧
        (48 ≤ c.toNat ∧ c.toNat ≤ 57) ∧ (48 ≤ d.toNat ∧ d.toNat ≤ 57) then
      some (1000 * (a.toNat - 48) + 100 * (b.toNat - 48) +
        10 * (c.toNat - 48) + (d.toNat - 48), rest)
    else none
  | _ => none

/-- A whitespace character in the format becomes `\s+` in strptime's regex:
one or more whitespace characters, matched greedily (what follows in both
formats used here is never whitespace, so maximal munch is exact). -/
def spacePlus : List Char → Option (List Char)
  | c :: rest => if pyIsSpace c then some (rest.dropWhile pyIsSpace) else none
  | [] => none

/-- Tail `/%Y` (then end of string) of the `%m/%d/%Y` pattern: the regex
must consume the whole string (`_strptime` rejects a partial match). -/
def mdyDayTail (m d : Nat) (r : List Char) : Option (Nat × Nat × Nat) :=
  (expect '/' r).bind fun r1 =>
    (year4 r1).bind fun p =>
      if p.2 = [] then some (m, d, p.1) else none

/-- Tail `/%d/%Y` of the `%m/%d/%Y` pattern, with the day alternatives
tried in regex order. -/
def mdyTail (m : Nat) (r : List Char) : Option (Nat × Nat × Nat) :=
  (expect '/' r).bind fun r1 =>
    oalt ((altD1 r1).bind fun p => mdyDayTail m p.1 p.2)
      (oalt ((altD2 r1).bind fun p => mdyDayTail m p.1 p.2)
        (oalt ((altD3 r1).bind fun p => mdyDayTail m p.1 p.2)
          ((altD4 r1).bind fun p => mdyDayTail m p.1 p.2)))

/-- Full match of `datetime.strptime(s, '%m/%d/%Y')`'s regex, returning
(month, day, year). -/
def parseMDY (cs : List Char) : Option (Nat × Nat × Nat) :=
  oalt ((altM1 cs).bind fun p => mdyTail p.1 p.2)
    (oalt ((altM2 cs).bind fun p => mdyTail p.1 p.2)
      ((altM3 cs).bind fun p => mdyTail p.1 p.2))

/-- strptime's alternation for `%B`: the lower-cased full month names (plus
the empty name of index 0, from `calendar.month_name[0]`), sorted longest
first, ties in original order, matched case-insensitively. -/
def monthTable : List (List Char × Nat) :=
  [(['s', 'e', 'p', 't', 'e', 'm', 'b', 'e', 'r'], 9),
   (['f', 'e', 'b', 'r', 'u', 'a', 'r', 'y'], 2),
   (['n', 'o', 'v', 'e', 'm', 'b', 'e', 'r'], 11),
   (['d', 'e', 'c', 'e', 'm', 'b', 'e', 'r'], 12),
   (['j', 'a', 'n', 'u', 'a', 'r', 'y'], 1),
   (['o', 'c', 't', 'o', 'b', 'e', 'r'], 10),
   (['a', 'u', 'g', 'u', 's', 't'], 8),
   (['m', 'a', 'r', 'c', 'h'], 3),
   (['a', 'p', 'r', 'i', 'l'], 4),
   (['j', 'u', 'n', 'e'], 6),
   (['j', 'u', 'l', 'y'], 7),
   (['m', 'a', 'y'], 5),
   ([], 0)]

/-- Case-insensitively strip a (lower-case) name from the front of the
input. -/
def stripCI : List Char → List Char → Option (List Char)
  | [], cs => some cs
  | _ :: _, [] => none
  | n :: ns, c :: cs => if pyLowerCh c = n then stripCI ns cs else none

/-- Tail `,\s+%Y` (then end of string) of the `%B %d, %Y` pattern. -/
def bdyDayTail (m d : Nat) (r : List Char) : Option (Nat × Nat × Nat) :=
  (expect ',' r).bind fun r1 =>
    (spacePlus r1).bind fun r2 =>
      (year4 r2).bind fun p =>
        if p.2 = [] then some (m, d, p.1) else none

/-- Tail `\s+%d, %Y` of the `%B %d, %Y` pattern after a month name. -/
def bdyFromName (m : Nat) (r : List Char) : Option (Nat × Nat × Nat) :=
  (spacePlus r).bind fun r1 =>
    oalt ((altD1 r1).bind fun p => bdyDayTail m p.1 p.2)
      (oalt ((altD2 r1).bind fun p => bdyDayTail m p.1 p.2)
        (oalt ((altD3 r1).bind fun p => bdyDayTail m p.1 p.2)
          ((altD4 r1).bind fun p => bdyDayTail m p.1 p.2)))

/-- Try the month-name alternatives in order. -/
def tryNames : List (List Char × Nat) → List Char → Option (Nat × Nat × Nat)
  | [], _ => none
  | (nm, m) :: rest, cs =>
    oalt ((stripCI nm cs).bind (bdyFromName m)) (tryNames rest cs)

/-- Full match of `datetime.strptime(s, '%B %d, %Y')`'s regex. -/
def parseBDY (cs : List Char) : Option (Nat × Nat × Nat) :=
  tryNames monthTable cs

/-- Gregorian leap year, as the `datetime` module computes it. -/
def isLeap (y : Nat) : Bool :=
  y % 4 == 0 && (y % 100 != 0 || y % 400 == 0)

/-- Days in a month of the proleptic Gregorian calendar. -/
def daysInMonth (y m : Nat) : Nat :=
  if m = 2 then (if isLeap y then 29 else 28)
  else if m = 4 ∨ m = 6 ∨ m = 9 ∨ m = 11 then 30
  else 31

/-- The validation `datetime(year, month, day)` performs; a violation
raises `ValueError`, which `_standardize_date` catches like a pattern
mismatch. -/
def dateOK (y m d : Nat) : Prop :=
  1 ≤ y ∧ y ≤ 9999 ∧ 1 ≤ m ∧ m ≤ 12 ∧ 1 ≤ d ∧ d ≤ daysInMonth y m

instance (y m d : Nat) : Decidable (dateOK y m d) := by
  unfold dateOK; infer_instance

/-- Two-digit zero-padded decimal (strftime `%m` / `%d`). -/
def pad2 (n : Nat) : List Char := [digitChar (n / 10), digitChar (n % 10)]

/-- Four-digit zero-padded decimal (strftime `%Y`). -/
def pad4 (n : Nat) : List Char :=
  [digitChar (n / 1000), digitChar (n / 100 % 10),
   digitChar (n / 10 % 10), digitChar (n % 10)]

/-- strftime `%Y` as the C library on Linux renders it: the year as a
plain decimal number, not zero-padded (so three digits for year 150, two
for year 23); `%Y` input came from four digits, hence `y ≤ 9999`. -/
def yearStr (y : Nat) : List Char :=
  if y < 10 then [digitChar y]
  else if y < 100 then [digitChar (y / 10), digitChar (y % 10)]
  else if y < 1000 then [digitChar (y / 100), digitChar (y / 10 % 10), digitChar (y % 10)]
  else pad4 y

/-- `datetime(y, m, d).strftime('%Y-%m-%d')`. -/
def isoStr (y m d : Nat) : String :=
  String.mk (yearStr y ++ '-' :: pad2 m ++ '-' :: pad2 d)

/-- The spec's canonical date form: `YYYY-MM-DD`, zero-padded, four-digit
year. -/
def canonicalYMD (y m d : Nat) : String :=
  String.mk (pad4 y ++ '-' :: pad2 m ++ '-' :: pad2 d)

/-- `_standardize_date`: strip, try `%m/%d/%Y` then `%B %d, %Y` (each
attempt's `ValueError` — pattern mismatch or invalid calendar date — falls
through), re-emit as `%Y-%m-%d`; `None` if both attempts fail. -/
def standardize_date (s : String) : Option String :=
  oalt
    ((parseMDY (pyStripL s.data)).bind fun p =>
      if dateOK p.2.2 p.1 p.2.1 then some (isoStr p.2.2 p.1 p.2.1) else none)
    ((parseBDY (pyStripL s.data)).bind fun p =>
      if dateOK p.2.2 p.1 p.2.1 then some (isoStr p.2.2 p.1 p.2.1) else none)

/-- `_format_name`: `name_str.strip().title()`. -/
def format_name (s : String) : String :=
  String.mk (pyTitle (pyStripL s.data))

/-- The `LOCATION_CORRECTIONS` business-rule table. -/
def LOCATION_CORRECTIONS : List (String × String) :=
  [("N YC", "New York"), ("chicago", "Chicago"), ("California", "Los Angeles")]

/-- Python `dict.get(k, default)` over the table. -/
def pyGet (tbl : List (String × String)) (k dflt : String) : String :=
  match tbl.find? (fun p => p.1 == k) with
  | some p => p.2
  | none => dflt

/-- `_standardize_location`:
`LOCATION_CORRECTIONS.get(location_str.strip(), location_str.strip())`. -/
def standardize_location (s : String) : String :=
  pyGet LOCATION_CORRECTIONS (stripStr s) (stripStr s)

/-- The record shape built by the extraction loop. -/
structure ExtractedRecord where
  name : String
  date_str : String
  location : String
deriving DecidableEq

/-- The record shape built by the cleansing loop. -/
structure CleanRecord where
  name : String
  signup_date : String
  location : String
deriving DecidableEq

/-- One iteration of the extraction loop on a data row: read `row[1]`,
`row[2]`, `row[3]` (an `IndexError` on a short row is caught: the row is
skipped), then keep the record only if `name` and `date_str` are
non-empty. -/
def extractRow : List String → Option ExtractedRecord
  | _ :: c1 :: c2 :: c3 :: _ =>
    if c1 ≠ "" ∧ c2 ≠ "" then some ⟨c1, c2, c3⟩ else none
  | _ => none

/-- The extraction loop over the data rows. -/
def extractRecs (rows : List (List String)) : List ExtractedRecord :=
  rows.filterMap extractRow

/-- One iteration of the cleansing loop: clean the three fields, keep the
record only when the date standardized (the quality gate). -/
def cleanOne (r : ExtractedRecord) : Option CleanRecord :=
  (standardize_date r.date_str).map fun d =>
    ⟨format_name r.name, d, standardize_location r.location⟩

/-- The extraction stage of `clean_and_structure_data`: `next(reader)`
consumes the first CSV row as the header — on an input with no rows at all
it raises `StopIteration` (modelled `none`) — and the loop extracts from
the remaining rows. -/
def extracted_records (s : String) : Option (List ExtractedRecord) :=
  match csvRows s with
  | [] => none
  | _ :: rows => some (extractRecs rows)

/-- `clean_and_structure_data`: extraction, then cleansing and the quality
gate; `none` models an exception escaping to the caller. -/
def clean_and_structure_data (s : String) : Option (List CleanRecord) :=
  match csvRows s with
  | [] => none
  | _ :: rows => some ((extractRecs rows).filterMap cleanOne)

/-- The bundled sample input (note the blank first line of the
triple-quoted Python string). -/
def MESSY_CSV_DATA : String :=
  "\nInternal ID,Full Name,Signup Date,Region,Notes\n1001,john doe,01/05/2023,New York,First contact\n1002,Jane Smith,May 2, 2023,N YC,Met at conference\n1003,peter jones,03-05-2023,Chicago,\n,Emily White,June 15, 2023,Los Angeles,Missing ID\n1005,MICHAEL BROWN,,California,No signup date\n1006,Sarah Green,20th of April 2023,chicago,\n"

/-- The run-based description of ASCII title-casing: each maximal run of
consecutive letters has its first character upper-cased and the remaining
characters lower-cased; characters outside letter runs pass through and
delimit the runs.  (Used as the spec-side statement of the amended name
formatter claim.) -/
def titleRuns : List Char → List Char
  | [] => []
  | c :: cs =>
    if isCased c then
      (pyUpperCh c :: (cs.takeWhile isCased).map pyLowerCh) ++
        titleRuns (cs.dropWhile isCased)
    else c :: titleRuns cs
termination_by l => l.length
decreasing_by
  · exact Nat.lt_succ_of_le (List.dropWhile_sublist isCased).length_le
  · exact Nat.lt_succ_self _

/-- The spec-side amended name formatter: trim, then title-case by maximal
letter runs. -/
def specFormatNameRuns (s : String) : String :=
  String.mk (titleRuns (pyStripL s.data))

/-- The original claim's rule for `_format_name`: per whitespace-delimited
token, upper-case the token's first character and lower-case the rest of
the token; whitespace passes through.  (`atStart` is true at the start of
a token.) -/
def wsTokenAux : List Char → Bool → List Char
  | [], _ => []
  | c :: cs, atStart =>
    if pyIsSpace c then c :: wsTokenAux cs true
    else (if atStart then pyUpperCh c else pyLowerCh c) :: wsTokenAux cs false

/-- The original claim's whitespace-token name formatter: trim, then apply
the per-token rule. -/
def specFormatNameWS (s : String) : String :=
  String.mk (wsTokenAux (pyStripL s.data) true)

/-- A calendar date written as `MM/DD/YYYY` (zero-padded). -/
def mmddyyyyStr (y m d : Nat) : String :=
  String.mk (pad2 m ++ '/' :: pad2 d ++ '/' :: pad4 y)

/-- The capitalized English month name. -/
def monthNameCap : Nat → List Char
  | 1 => ['J', 'a', 'n', 'u', 'a', 'r', 'y']
  | 2 => ['F', 'e', 'b', 'r', 'u', 'a', 'r', 'y']
  | 3 => ['M', 'a', 'r', 'c', 'h']
  | 4 => ['A', 'p', 'r', 'i', 'l']
  | 5 => ['M', 'a', 'y']
  | 6 => ['J', 'u', 'n', 'e']
  | 7 => ['J', 'u', 'l', 'y']
  | 8 => ['A', 'u', 'g', 'u', 's', 't']
  | 9 => ['S', 'e', 'p', 't', 'e', 'm', 'b', 'e', 'r']
  | 10 => ['O', 'c', 't', 'o', 'b', 'e', 'r']
  | 11 => ['N', 'o', 'v', 'e', 'm', 'b', 'e', 'r']
  | 12 => ['D', 'e', 'c', 'e', 'm', 'b', 'e', 'r']
  | _ => []

/-- A day-of-month written without padding, as in `May 2, 2023`. -/
def dayStr (d : Nat) : List Char := if d < 10 then [digitChar d] else pad2 d

/-- A calendar date written as `MonthName D, YYYY`. -/
def monthDayYearStr (y m d : Nat) : String :=
  String.mk (monthNameCap m ++ ' ' :: dayStr d ++ ',' :: ' ' :: pad4 y)

/-! ### Character-level facts -/

theorem charOfNat_toNat_small : ∀ n, n < 123 → (Char.ofNat n).toNat = n := by
  decide

theorem digitChar_toNat : ∀ n, n < 10 → (digitChar n).toNat = 48 + n := by
  decide

theorem pyIsSpace_digitChar : ∀ n, n < 10 → pyIsSpace (digitChar n) = false := by
  decide

theorem isCased_true_iff (c : Char) :
    isCased c = true ↔ (65 ≤ c.toNat ∧ c.toNat ≤ 90) ∨ (97 ≤ c.toNat ∧ c.toNat ≤ 122) := by
  simp [isCased]

theorem pyIsSpace_false_of_isCased (c : Char) (h : isCased c = true) :
    pyIsSpace c = false := by
  rw [isCased_true_iff] at h
  simp [pyIsSpace]
  omega

theorem pyUpperCh_toNat (c : Char) :
    (pyUpperCh c).toNat = if 97 ≤ c.toNat ∧ c.toNat ≤ 122 then c.toNat - 32 else c.toNat := by
  unfold pyUpperCh
  by_cases h : 97 ≤ c.toNat ∧ c.toNat ≤ 122
  · rw [if_pos h, if_pos h]
    exact charOfNat_toNat_small _ (by omega)
  · rw [if_neg h, if_neg h]

theorem pyLowerCh_toNat (c : Char) :
    (pyLowerCh c).toNat = if 65 ≤ c.toNat ∧ c.toNat ≤ 90 then c.toNat + 32 else c.toNat := by
  unfold pyLowerCh
  by_cases h : 65 ≤ c.toNat ∧ c.toNat ≤ 90
  · rw [if_pos h, if_pos h]
    exact charOfNat_toNat_small _ (by omega)
  · rw [if_neg h, if_neg h]

theorem isCased_pyUpperCh (c : Char) : isCased (pyUpperCh c) = isCased c := by
  have ht := pyUpperCh_toNat c
  by_cases h : 97 ≤ c.toNat ∧ c.toNat ≤ 122
  · rw [if_pos h] at ht
    have h1 : isCased (pyUpperCh c) = true := by rw [isCased_true_iff, ht]; omega
    have h2 : isCased c = true := by rw [isCased_true_iff]; omega
    rw [h1, h2]
  · rw [if_neg h] at ht
    simp only [isCased, ht]

theorem isCased_pyLowerCh (c : Char) : isCased (pyLowerCh c) = isCased c := by
  have ht := pyLowerCh_toNat c
  by_cases h : 65 ≤ c.toNat ∧ c.toNat ≤ 90
  · rw [if_pos h] at ht
    have h1 : isCased (pyLowerCh c) = true := by rw [isCased_true_iff, ht]; omega
    have h2 : isCased c = true := by rw [isCased_true_iff]; omega
    rw [h1, h2]
  · rw [if_neg h] at ht
    simp only [isCased, ht]

theorem pyUpperCh_eq_self (c : Char) (h : ¬(97 ≤ c.toNat ∧ c.toNat ≤ 122)) :
    pyUpperCh c = c := by
  unfold pyUpperCh
  rw [if_neg h]

theorem pyLowerCh_eq_self (c : Char) (h : ¬(65 ≤ c.toNat ∧ c.toNat ≤ 90)) :
    pyLowerCh c = c := by
  unfold pyLowerCh
  rw [if_neg h]

theorem pyUpperCh_pyUpperCh (c : Char) : pyUpperCh (pyUpperCh c) = pyUpperCh c := by
  have ht := pyUpperCh_toNat c
  apply pyUpperCh_eq_self
  by_cases h : 97 ≤ c.toNat ∧ c.toNat ≤ 122
  · rw [if_pos h] at ht
    omega
  · rw [if_neg h] at ht
    omega

theorem pyLowerCh_pyLowerCh (c : Char) : pyLowerCh (pyLowerCh c) = pyLowerCh c := by
  have ht := pyLowerCh_toNat c
  apply pyLowerCh_eq_self
  by_cases h : 65 ≤ c.toNat ∧ c.toNat ≤ 90
  · rw [if_pos h] at ht
    omega
  · rw [if_neg h] at ht
    omega

/-! ### `str.strip` facts -/

theorem head?_dropWhile_false {α : Type} {p : α → Bool} :
    ∀ (l : List α) {c : α}, (l.dropWhile p).head? = some c → p c = false := by
  intro l
  induction l with
  | nil => intro c h; cases h
  | cons a t ih =>
    intro c h
    rw [List.dropWhile_cons] at h
    by_cases hp : p a
    · rw [if_pos hp] at h
      exact ih h
    · rw [if_neg hp] at h
      simp only [List.head?_cons, Option.some.injEq] at h
      rw [← h]
      exact Bool.eq_false_iff.mpr hp

theorem dropWhile_eq_self_of_head {α : Type} (p : α → Bool) (l : List α)
    (h : ∀ c, l.head? = some c → p c = false) : l.dropWhile p = l := by
  cases l with
  | nil => rfl
  | cons a t =>
    have := h a rfl
    simp [List.dropWhile_cons, this]

theorem dropWhile_dropWhile {α : Type} (p : α → Bool) (l : List α) :
    (l.dropWhile p).dropWhile p = l.dropWhile p :=
  dropWhile_eq_self_of_head p _ (fun _ hc => head?_dropWhile_false l hc)

theorem getLast?_dropWhile {α : Type} (p : α → Bool) (l : List α) {c : α}
    (h : (l.dropWhile p).getLast? = some c) : l.getLast? = some c := by
  obtain ⟨t, ht⟩ : ∃ t, t ++ l.dropWhile p = l := List.dropWhile_suffix p
  have hne : l.dropWhile p ≠ [] := by
    intro e; rw [e] at h; cases h
  rw [← ht, List.getLast?_append_of_ne_nil t hne]
  exact h

theorem pyStrip_head_false (l : List Char) {c : Char}
    (h : (pyStripL l).head? = some c) : pyIsSpace c = false := by
  unfold pyStripL at h
  rw [List.head?_reverse] at h
  have h2 := getLast?_dropWhile pyIsSpace _ h
  rw [List.getLast?_reverse] at h2
  exact head?_dropWhile_false l h2

theorem pyStrip_last_false (l : List Char) {c : Char}
    (h : (pyStripL l).getLast? = some c) : pyIsSpace c = false := by
  unfold pyStripL at h
  rw [List.getLast?_reverse] at h
  exact head?_dropWhile_false _ h

theorem pyStrip_noop (l : List Char)
    (h1 : ∀ c, l.head? = some c → pyIsSpace c = false)
    (h2 : ∀ c, l.getLast? = some c → pyIsSpace c = false) : pyStripL l = l := by
  unfold pyStripL
  rw [dropWhile_eq_self_of_head _ _ h1]
  rw [dropWhile_eq_self_of_head _ _
    (fun c hc => h2 c (by rw [List.head?_reverse] at hc; exact hc))]
  exact List.reverse_reverse l

theorem pyStrip_idem (l : List Char) : pyStripL (pyStripL l) = pyStripL l :=
  pyStrip_noop _ (fun _ hc => pyStrip_head_false l hc)
    (fun _ hc => pyStrip_last_false l hc)

theorem stripStr_idem (s : String) : stripStr (stripStr s) = stripStr s := by
  unfold stripStr
  exact congrArg String.mk (pyStrip_idem s.data)

/-! ### `str.title` facts -/

theorem pyTitleAux_map_space : ∀ (l : List Char) (b : Bool),
    (pyTitleAux l b).map pyIsSpace = l.map pyIsSpace := by
  intro l
  induction l with
  | nil => intro b; rfl
  | cons c cs ih =>
    intro b
    cases hC : isCased c with
    | false => simp [pyTitleAux, hC, ih]
    | true =>
      have hc := pyIsSpace_false_of_isCased c hC
      have hu : pyIsSpace (pyUpperCh c) = false :=
        pyIsSpace_false_of_isCased _ (by rw [isCased_pyUpperCh]; exact hC)
      have hl : pyIsSpace (pyLowerCh c) = false :=
        pyIsSpace_false_of_isCased _ (by rw [isCased_pyLowerCh]; exact hC)
      cases b <;> simp [pyTitleAux, hC, hc, hu, hl, ih]

theorem pyTitleAux_idem : ∀ (l : List Char) (b : Bool),
    pyTitleAux (pyTitleAux l b) b = pyTitleAux l b := by
  intro l
  induction l with
  | nil => intro b; rfl
  | cons c cs ih =>
    intro b
    cases hC : isCased c with
    | false => simp [pyTitleAux, hC, ih]
    | true =>
      cases b with
      | false =>
        have hu : isCased (pyUpperCh c) = true := by
          rw [isCased_pyUpperCh]; exact hC
        simp [pyTitleAux, hC, hu, pyUpperCh_pyUpperCh, ih]
      | true =>
        have hl : isCased (pyLowerCh c) = true := by
          rw [isCased_pyLowerCh]; exact hC
        simp [pyTitleAux, hC, hl, pyLowerCh_pyLowerCh, ih]

theorem pyTitle_head_space (y : List Char)
    (hy : ∀ c, y.head? = some c → pyIsSpace c = false) :
    ∀ c, (pyTitle y).head? = some c → pyIsSpace c = false := by
  intro c hc
  have h1 : ((pyTitle y).map pyIsSpace).head? = (y.map pyIsSpace).head? := by
    unfold pyTitle
    rw [pyTitleAux_map_space]
  rw [List.head?_map, List.head?_map, hc] at h1
  cases hy' : y.head? with
  | none => rw [hy'] at h1; cases h1
  | some c' =>
    rw [hy'] at h1
    simp only [Option.map_some', Option.some.injEq] at h1
    rw [h1]
    exact hy c' hy'

theorem pyTitle_last_space (y : List Char)
    (hy : ∀ c, y.getLast? = some c → pyIsSpace c = false) :
    ∀ c, (pyTitle y).getLast? = some c → pyIsSpace c = false := by
  intro c hc
  have h1 : ((pyTitle y).map pyIsSpace).getLast? = (y.map pyIsSpace).getLast? := by
    unfold pyTitle
    rw [pyTitleAux_map_space]
  rw [List.getLast?_map, List.getLast?_map, hc] at h1
  cases hy' : y.getLast? with
  | none => rw [hy'] at h1; cases h1
  | some c' =>
    rw [hy'] at h1
    simp only [Option.map_some', Option.some.injEq] at h1
    rw [h1]
    exact hy c' hy'

theorem format_name_idem (x : String) : format_name (format_name x) = format_name x := by
  show String.mk (pyTitle (pyStripL (pyTitle (pyStripL x.data)))) =
    String.mk (pyTitle (pyStripL x.data))
  have hstrip : pyStripL (pyTitle (pyStripL x.data)) = pyTitle (pyStripL x.data) := by
    apply pyStrip_noop
    · exact pyTitle_head_space _ (fun _ hc => pyStrip_head_false _ hc)
    · exact pyTitle_last_space _ (fun _ hc => pyStrip_last_false _ hc)
  rw [hstrip]
  unfold pyTitle
  rw [pyTitleAux_idem]

/-! ### Location corrector facts -/

theorem pyGet_lookup (tbl : List (String × String)) (k dflt : String) :
    pyGet tbl k dflt = (tbl.lookup k).getD dflt := by
  induction tbl with
  | nil => rfl
  | cons p t ih =>
    obtain ⟨a, b⟩ := p
    unfold pyGet
    by_cases h : a = k
    · subst h
      rw [List.find?_cons_of_pos _ (by simp)]
      simp [List.lookup]
    · rw [List.find?_cons_of_neg _ (by simp [h]), List.lookup_cons]
      have hb : (k == a) = false := by
        simp
        exact fun e => h e.symm
      rw [hb]
      exact ih

theorem pyGet_table_none (k : String) (h1 : k ≠ "N YC") (h2 : k ≠ "chicago")
    (h3 : k ≠ "California") : pyGet LOCATION_CORRECTIONS k k = k := by
  unfold pyGet LOCATION_CORRECTIONS
  rw [List.find?_cons_of_neg _ (by simp; exact fun e => h1 e.symm)]
  rw [List.find?_cons_of_neg _ (by simp; exact fun e => h2 e.symm)]
  rw [List.find?_cons_of_neg _ (by simp; exact fun e => h3 e.symm)]
  rfl

theorem standardize_location_idem (x : String) :
    standardize_location (standardize_location x) = standardize_location x := by
  by_cases h1 : stripStr x = "N YC"
  · have e1 : standardize_location x = "New York" := by
      unfold standardize_location
      rw [h1]
      decide
    rw [e1]
    decide
  · by_cases h2 : stripStr x = "chicago"
    · have e1 : standardize_location x = "Chicago" := by
        unfold standardize_location
        rw [h2]
        decide
      rw [e1]
      decide
    · by_cases h3 : stripStr x = "California"
      · have e1 : standardize_location x = "Los Angeles" := by
          unfold standardize_location
          rw [h3]
          decide
        rw [e1]
        decide
      · have e1 : standardize_location x = stripStr x := by
          unfold standardize_location
          exact pyGet_table_none _ h1 h2 h3
        rw [e1]
        unfold standardize_location
        rw [stripStr_idem]
        exact pyGet_table_none _ h1 h2 h3

/-! ### CSV reader facts -/

theorem csvAux_ne_nil : ∀ (cs : List Char) (st : CsvSt) (row : List String)
    (fld : List Char), st ≠ CsvSt.startRecord → csvAux st row fld cs ≠ [] := by
  intro cs
  induction cs with
  | nil =>
    intro st row fld hst
    cases st with
    | startRecord => exact absurd rfl hst
    | startField => simp [csvAux]
    | inField => simp [csvAux]
    | inQuoted => simp [csvAux]
    | quoteQuoted => simp [csvAux]
  | cons c cs ih =>
    intro st row fld hst
    cases st with
    | startRecord => exact absurd rfl hst
    | startField =>
      simp only [csvAux]
      split
      · exact List.cons_ne_nil _ _
      · split
        · exact ih .startField _ _ (by decide)
        · split
          · exact ih .inQuoted _ _ (by decide)
          · exact ih .inField _ _ (by decide)
    | inField =>
      simp only [csvAux]
      split
      · exact List.cons_ne_nil _ _
      · split
        · exact ih .startField _ _ (by decide)
        · exact ih .inField _ _ (by decide)
    | inQuoted =>
      simp only [csvAux]
      split
      · exact ih .quoteQuoted _ _ (by decide)
      · exact ih .inQuoted _ _ (by decide)
    | quoteQuoted =>
      simp only [csvAux]
      split
      · exact ih .inQuoted _ _ (by decide)
      · split
        · exact ih .startField _ _ (by decide)
        · split
          · exact List.cons_ne_nil _ _
          · exact ih .inField _ _ (by decide)

theorem csvRows_ne_nil (s : String) (h : s ≠ "") : csvRows s ≠ [] := by
  unfold csvRows
  cases hs : s.data with
  | nil =>
    exfalso
    apply h
    cases s with
    | _ data =>
      simp only at hs
      rw [hs]
  | cons c cs =>
    simp only [csvAux]
    split
    · exact List.cons_ne_nil _ _
    · split
      · exact csvAux_ne_nil _ .startField _ _ (by decide)
      · split
        · exact csvAux_ne_nil _ .inQuoted _ _ (by decide)
        · exact csvAux_ne_nil _ .inField _ _ (by decide)

/-! ### Pipeline shape facts -/

theorem filterMap_map_some_sublist {α β : Type} (f : α → Option β) :
    ∀ l : List α, ((l.filterMap f).map some).Sublist (l.map f) := by
  intro l
  induction l with
  | nil => simp
  | cons a t ih =>
    cases hf : f a with
    | none =>
      rw [List.filterMap_cons_none hf, List.map_cons, hf]
      exact ih.cons none
    | some b =>
      rw [List.filterMap_cons_some hf, List.map_cons, List.map_cons, hf]
      exact ih.cons₂ (some b)

theorem oalt_eq_some {α : Type} (a b : Option α) (x : α) (h : oalt a b = some x) :
    a = some x ∨ b = some x := by
  cases a with
  | some y => left; exact h
  | none => right; exact h

theorem attempt_shape (o : Option (Nat × Nat × Nat)) (t : String)
    (h : (o.bind fun p =>
      if dateOK p.2.2 p.1 p.2.1 then some (isoStr p.2.2 p.1 p.2.1) else none) = some t) :
    ∃ y m d, dateOK y m d ∧ t = isoStr y m d := by
  cases o with
  | none => cases h
  | some p =>
    obtain ⟨m, d, y⟩ := p
    simp only [Option.some_bind] at h
    by_cases hok : dateOK y m d
    · rw [if_pos hok] at h
      exact ⟨y, m, d, hok, (Option.some.inj h).symm⟩
    · rw [if_neg hok] at h
      cases h

theorem standardize_date_shape (s t : String) (h : standardize_date s = some t) :
    ∃ y m d, dateOK y m d ∧ t = isoStr y m d := by
  unfold standardize_date at h
  rcases oalt_eq_some _ _ _ h with h' | h'
  · exact attempt_shape _ _ h'
  · exact attempt_shape _ _ h'

/-! ### Equivalence of the flag-based and run-based title-casing -/

theorem pyTitleAux_true_run (cs : List Char) :
    pyTitleAux cs true =
      (cs.takeWhile isCased).map pyLowerCh ++ pyTitleAux (cs.dropWhile isCased) false := by
  induction cs with
  | nil => rfl
  | cons c t ih =>
    cases hC : isCased c with
    | true => simp [pyTitleAux, hC, List.takeWhile_cons, List.dropWhile_cons, ih]
    | false => simp [pyTitleAux, hC, List.takeWhile_cons, List.dropWhile_cons]

theorem titleRuns_eq_pyTitle (l : List Char) : titleRuns l = pyTitle l := by
  have key : ∀ (n : Nat) (l : List Char), l.length ≤ n → titleRuns l = pyTitleAux l false := by
    intro n
    induction n with
    | zero =>
      intro l h
      cases l with
      | nil => simp [titleRuns, pyTitleAux]
      | cons c cs => simp at h
    | succ n ih =>
      intro l h
      cases l with
      | nil => simp [titleRuns, pyTitleAux]
      | cons c cs =>
        cases hC : isCased c with
        | false =>
          rw [show titleRuns (c :: cs) = c :: titleRuns cs from by
            simp [titleRuns, hC]]
          rw [ih cs (by simp at h; omega)]
          simp [pyTitleAux, hC]
        | true =>
          rw [show titleRuns (c :: cs) =
              (pyUpperCh c :: (cs.takeWhile isCased).map pyLowerCh) ++
                titleRuns (cs.dropWhile isCased) from by
            simp [titleRuns, hC]]
          rw [ih (cs.dropWhile isCased)
            (Nat.le_trans (List.dropWhile_sublist isCased).length_le (by simp at h; omega))]
          simp [pyTitleAux, hC, pyTitleAux_true_run]
  exact key l.length l (Nat.le_refl _)

/-! ### strptime round-trip facts -/

theorem daysInMonth_le_31 (y m : Nat) : daysInMonth y m ≤ 31 := by
  unfold daysInMonth
  split
  · split <;> omega
  · split <;> omega

theorem altM1_digits (a b : Nat) (ha : a ≤ 9) (hb : b ≤ 9) (rest : List Char) :
    altM1 (digitChar a :: digitChar b :: rest) =
      if a = 1 ∧ b ≤ 2 then some (10 + b, rest) else none := by
  simp only [altM1, digitChar_toNat a (by omega), digitChar_toNat b (by omega)]
  by_cases h : a = 1 ∧ b ≤ 2
  · have hc : 48 + a = 49 ∧ 48 ≤ 48 + b ∧ 48 + b ≤ 50 := by omega
    rw [if_pos hc, if_pos h, show 48 + b - 48 = b from by omega]
  · have hc : ¬(48 + a = 49 ∧ 48 ≤ 48 + b ∧ 48 + b ≤ 50) := by omega
    rw [if_neg hc, if_neg h]

theorem altM2_digits (a b : Nat) (ha : a ≤ 9) (hb : b ≤ 9) (rest : List Char) :
    altM2 (digitChar a :: digitChar b :: rest) =
      if a = 0 ∧ 1 ≤ b then some (b, rest) else none := by
  simp only [altM2, digitChar_toNat a (by omega), digitChar_toNat b (by omega)]
  by_cases h : a = 0 ∧ 1 ≤ b
  · have hc : 48 + a = 48 ∧ 49 ≤ 48 + b ∧ 48 + b ≤ 57 := by omega
    rw [if_pos hc, if_pos h, show 48 + b - 48 = b from by omega]
  · have hc : ¬(48 + a = 48 ∧ 49 ≤ 48 + b ∧ 48 + b ≤ 57) := by omega
    rw [if_neg hc, if_neg h]

theorem altM3_digit (a : Nat) (ha : a ≤ 9) (rest : List Char) :
    altM3 (digitChar a :: rest) = if 1 ≤ a then some (a, rest) else none := by
  simp only [altM3, digitChar_toNat a (by omega)]
  by_cases h : 1 ≤ a
  · have hc : 49 ≤ 48 + a ∧ 48 + a ≤ 57 := by omega
    rw [if_pos hc, if_pos h, show 48 + a - 48 = a from by omega]
  · have hc : ¬(49 ≤ 48 + a ∧ 48 + a ≤ 57) := by omega
    rw [if_neg hc, if_neg h]

theorem altD1_digits (a b : Nat) (ha : a ≤ 9) (hb : b ≤ 9) (rest : List Char) :
    altD1 (digitChar a :: digitChar b :: rest) =
      if a = 3 ∧ b ≤ 1 then some (30 + b, rest) else none := by
  simp only [altD1, digitChar_toNat a (by omega), digitChar_toNat b (by omega)]
  by_cases h : a = 3 ∧ b ≤ 1
  · have hc : 48 + a = 51 ∧ 48 ≤ 48 + b ∧ 48 + b ≤ 49 := by omega
    rw [if_pos hc, if_pos h, show 48 + b - 48 = b from by omega]
  · have hc : ¬(48 + a = 51 ∧ 48 ≤ 48 + b ∧ 48 + b ≤ 49) := by omega
    rw [if_neg hc, if_neg h]

theorem altD2_digits (a b : Nat) (ha : a ≤ 9) (hb : b ≤ 9) (rest : List Char) :
    altD2 (digitChar a :: digitChar b :: rest) =
      if 1 ≤ a ∧ a ≤ 2 then some (10 * a + b, rest) else none := by
  simp only [altD2, digitChar_toNat a (by omega), digitChar_toNat b (by omega)]
  by_cases h : 1 ≤ a ∧ a ≤ 2
  · have hc : (49 ≤ 48 + a ∧ 48 + a ≤ 50) ∧ (48 ≤ 48 + b ∧ 48 + b ≤ 57) := by omega
    rw [if_pos hc, if_pos h,
      show 10 * (48 + a - 48) + (48 + b - 48) = 10 * a + b from by omega]
  · have hc : ¬((49 ≤ 48 + a ∧ 48 + a ≤ 50) ∧ (48 ≤ 48 + b ∧ 48 + b ≤ 57)) := by omega
    rw [if_neg hc, if_neg h]

theorem altD3_digits (a b : Nat) (ha : a ≤ 9) (hb : b ≤ 9) (rest : List Char) :
    altD3 (digitChar a :: digitChar b :: rest) =
      if a = 0 ∧ 1 ≤ b then some (b, rest) else none := by
  simp only [altD3, digitChar_toNat a (by omega), digitChar_toNat b (by omega)]
  by_cases h : a = 0 ∧ 1 ≤ b
  · have hc : 48 + a = 48 ∧ 49 ≤ 48 + b ∧ 48 + b ≤ 57 := by omega
    rw [if_pos hc, if_pos h, show 48 + b - 48 = b from by omega]
  · have hc : ¬(48 + a = 48 ∧ 49 ≤ 48 + b ∧ 48 + b ≤ 57) := by omega
    rw [if_neg hc, if_neg h]

theorem altD4_digit (a : Nat) (ha : a ≤ 9) (rest : List Char) :
    altD4 (digitChar a :: rest) = if 1 ≤ a then some (a, rest) else none := by
  simp only [altD4, digitChar_toNat a (by omega)]
  by_cases h : 1 ≤ a
  · have hc : 49 ≤ 48 + a ∧ 48 + a ≤ 57 := by omega
    rw [if_pos hc, if_pos h, show 48 + a - 48 = a from by omega]
  · have hc : ¬(49 ≤ 48 + a ∧ 48 + a ≤ 57) := by omega
    rw [if_neg hc, if_neg h]

theorem altD1_comma (a : Nat) (ha : a ≤ 9) (rest : List Char) :
    altD1 (digitChar a :: ',' :: rest) = none := by
  simp only [altD1, digitChar_toNat a (by omega),
    show (',' : Char).toNat = 44 from rfl]
  have hc : ¬(48 + a = 51 ∧ 48 ≤ 44 ∧ 44 ≤ 49) := by omega
  rw [if_neg hc]

theorem altD2_comma (a : Nat) (ha : a ≤ 9) (rest : List Char) :
    altD2 (digitChar a :: ',' :: rest) = none := by
  simp only [altD2, digitChar_toNat a (by omega),
    show (',' : Char).toNat = 44 from rfl]
  have hc : ¬((49 ≤ 48 + a ∧ 48 + a ≤ 50) ∧ (48 ≤ 44 ∧ 44 ≤ 57)) := by omega
  rw [if_neg hc]

theorem altD3_comma (a : Nat) (ha : a ≤ 9) (rest : List Char) :
    altD3 (digitChar a :: ',' :: rest) = none := by
  simp only [altD3, digitChar_toNat a (by omega),
    show (',' : Char).toNat = 44 from rfl]
  have hc : ¬(48 + a = 48 ∧ 49 ≤ 44 ∧ 44 ≤ 57) := by omega
  rw [if_neg hc]

theorem year4_pad4 (y : Nat) (hy : y ≤ 9999) (rest : List Char) :
    year4 (pad4 y ++ rest) = some (y, rest) := by
  simp only [pad4, List.cons_append, List.nil_append, year4,
    digitChar_toNat (y / 1000) (by omega), digitChar_toNat (y / 100 % 10) (by omega),
    digitChar_toNat (y / 10 % 10) (by omega), digitChar_toNat (y % 10) (by omega)]
  have hc : (48 ≤ 48 + y / 1000 ∧ 48 + y / 1000 ≤ 57) ∧
      (48 ≤ 48 + y / 100 % 10 ∧ 48 + y / 100 % 10 ≤ 57) ∧
      (48 ≤ 48 + y / 10 % 10 ∧ 48 + y / 10 % 10 ≤ 57) ∧
      (48 ≤ 48 + y % 10 ∧ 48 + y % 10 ≤ 57) := by omega
  rw [if_pos hc]
  rw [show 1000 * (48 + y / 1000 - 48) + 100 * (48 + y / 100 % 10 - 48) +
      10 * (48 + y / 10 % 10 - 48) + (48 + y % 10 - 48) = y from by omega]

theorem expect_cons_self (c : Char) (rest : List Char) :
    expect c (c :: rest) = some rest := by
  simp [expect]

theorem spacePlus_space (l : List Char)
    (hl : ∀ c, l.head? = some c → pyIsSpace c = false) :
    spacePlus (' ' :: l) = some l := by
  simp only [spacePlus]
  rw [if_pos (show pyIsSpace ' ' = true from rfl)]
  rw [dropWhile_eq_self_of_head _ _ hl]

theorem mdyDayTail_run (m d y : Nat) (hy : y ≤ 9999) :
    mdyDayTail m d ('/' :: pad4 y) = some (m, d, y) := by
  unfold mdyDayTail
  rw [expect_cons_self]
  simp only [Option.some_bind]
  have h4 := year4_pad4 y hy []
  rw [List.append_nil] at h4
  rw [h4]
  simp

theorem dayAlts_padded (d : Nat) (hd1 : 1 ≤ d) (hd2 : d ≤ 31) (rest : List Char)
    {γ : Type} (f : Nat × List Char → Option γ) (v : γ)
    (hf : f (d, rest) = some v) :
    oalt ((altD1 (pad2 d ++ rest)).bind f)
      (oalt ((altD2 (pad2 d ++ rest)).bind f)
        (oalt ((altD3 (pad2 d ++ rest)).bind f)
          ((altD4 (pad2 d ++ rest)).bind f))) = some v := by
  have h10 : d / 10 ≤ 9 := by omega
  have h1 : d % 10 ≤ 9 := by omega
  simp only [pad2, List.cons_append, List.nil_append]
  rw [altD1_digits _ _ h10 h1, altD2_digits _ _ h10 h1, altD3_digits _ _ h10 h1,
    altD4_digit _ h10]
  by_cases c1 : d < 10
  · rw [if_neg (show ¬(d / 10 = 3 ∧ d % 10 ≤ 1) from by omega),
      if_neg (show ¬(1 ≤ d / 10 ∧ d / 10 ≤ 2) from by omega),
      if_pos (show d / 10 = 0 ∧ 1 ≤ d % 10 from by omega),
      show d % 10 = d from by omega]
    simp only [Option.none_bind, Option.some_bind, oalt]
    rw [hf]
  · by_cases c2 : d ≤ 29
    · rw [if_neg (show ¬(d / 10 = 3 ∧ d % 10 ≤ 1) from by omega),
        if_pos (show 1 ≤ d / 10 ∧ d / 10 ≤ 2 from by omega),
        show 10 * (d / 10) + d % 10 = d from by omega]
      simp only [Option.none_bind, Option.some_bind, oalt]
      rw [hf]
    · rw [if_pos (show d / 10 = 3 ∧ d % 10 ≤ 1 from by omega),
        show 30 + d % 10 = d from by omega]
      simp only [Option.some_bind, oalt]
      rw [hf]

theorem dayAlts_unpadded (d : Nat) (hd1 : 1 ≤ d) (hd2 : d ≤ 31) (rest : List Char)
    {γ : Type} (f : Nat × List Char → Option γ) (v : γ)
    (hf : f (d, ',' :: rest) = some v) :
    oalt ((altD1 (dayStr d ++ ',' :: rest)).bind f)
      (oalt ((altD2 (dayStr d ++ ',' :: rest)).bind f)
        (oalt ((altD3 (dayStr d ++ ',' :: rest)).bind f)
          ((altD4 (dayStr d ++ ',' :: rest)).bind f))) = some v := by
  by_cases c1 : d < 10
  · rw [show dayStr d = [digitChar d] from by simp [dayStr, c1]]
    simp only [List.cons_append, List.nil_append]
    rw [altD1_comma d (by omega), altD2_comma d (by omega), altD3_comma d (by omega),
      altD4_digit d (by omega), if_pos hd1]
    simp only [Option.none_bind, Option.some_bind, oalt]
    rw [hf]
  · rw [show dayStr d = pad2 d from by simp [dayStr, c1]]
    exact dayAlts_padded d hd1 hd2 (',' :: rest) f v hf

theorem monthAlts_padded (m : Nat) (hm1 : 1 ≤ m) (hm2 : m ≤ 12) (rest : List Char)
    {γ : Type} (f : Nat × List Char → Option γ) (v : γ)
    (hf : f (m, rest) = some v) :
    oalt ((altM1 (pad2 m ++ rest)).bind f)
      (oalt ((altM2 (pad2 m ++ rest)).bind f)
        ((altM3 (pad2 m ++ rest)).bind f)) = some v := by
  have h10 : m / 10 ≤ 9 := by omega
  have h1 : m % 10 ≤ 9 := by omega
  simp only [pad2, List.cons_append, List.nil_append]
  rw [altM1_digits _ _ h10 h1, altM2_digits _ _ h10 h1, altM3_digit _ h10]
  by_cases c1 : m < 10
  · rw [if_neg (show ¬(m / 10 = 1 ∧ m % 10 ≤ 2) from by omega),
      if_pos (show m / 10 = 0 ∧ 1 ≤ m % 10 from by omega),
      show m % 10 = m from by omega]
    simp only [Option.none_bind, Option.some_bind, oalt]
    rw [hf]
  · rw [if_pos (show m / 10 = 1 ∧ m % 10 ≤ 2 from by omega),
      show 10 + m % 10 = m from by omega]
    simp only [Option.some_bind, oalt]
    rw [hf]

theorem mdyTail_run (m d y : Nat) (hd1 : 1 ≤ d) (hd2 : d ≤ 31) (hy : y ≤ 9999) :
    mdyTail m ('/' :: pad2 d ++ '/' :: pad4 y) = some (m, d, y) := by
  unfold mdyTail
  simp only [List.cons_append]
  rw [expect_cons_self]
  simp only [Option.some_bind]
  exact dayAlts_padded d hd1 hd2 ('/' :: pad4 y) _ _ (mdyDayTail_run m d y hy)

theorem parseMDY_run (y m d : Nat) (hm1 : 1 ≤ m) (hm2 : m ≤ 12)
    (hd1 : 1 ≤ d) (hd2 : d ≤ 31) (hy : y ≤ 9999) :
    parseMDY (pad2 m ++ '/' :: pad2 d ++ '/' :: pad4 y) = some (m, d, y) := by
  unfold parseMDY
  exact monthAlts_padded m hm1 hm2 _ _ _ (mdyTail_run m d y hd1 hd2 hy)

theorem pad4_head_not_space (y : Nat) (hy : y ≤ 9999) :
    ∀ c, (pad4 y).head? = some c → pyIsSpace c = false := by
  intro c hc
  simp only [pad4, List.head?_cons, Option.some.injEq] at hc
  rw [← hc]
  exact pyIsSpace_digitChar _ (by omega)

theorem dayStr_head_not_space (d : Nat) (hd : d ≤ 31) (X : List Char) :
    ∀ c, (dayStr d ++ X).head? = some c → pyIsSpace c = false := by
  intro c hc
  by_cases h : d < 10
  · rw [show dayStr d = [digitChar d] from by simp [dayStr, h]] at hc
    simp only [List.cons_append, List.nil_append, List.head?_cons,
      Option.some.injEq] at hc
    rw [← hc]
    exact pyIsSpace_digitChar d (by omega)
  · rw [show dayStr d = pad2 d from by simp [dayStr, h]] at hc
    simp only [pad2, List.cons_append, List.head?_cons, Option.some.injEq] at hc
    rw [← hc]
    exact pyIsSpace_digitChar _ (by omega)

theorem bdyDayTail_run (m d y : Nat) (hy : y ≤ 9999) :
    bdyDayTail m d (',' :: ' ' :: pad4 y) = some (m, d, y) := by
  unfold bdyDayTail
  rw [expect_cons_self]
  simp only [Option.some_bind]
  rw [spacePlus_space (pad4 y) (pad4_head_not_space y hy)]
  simp only [Option.some_bind]
  have h4 := year4_pad4 y hy []
  rw [List.append_nil] at h4
  rw [h4]
  simp

theorem bdyFromName_run (m d y : Nat) (hd1 : 1 ≤ d) (hd2 : d ≤ 31) (hy : y ≤ 9999) :
    bdyFromName m (' ' :: dayStr d ++ ',' :: ' ' :: pad4 y) = some (m, d, y) := by
  unfold bdyFromName
  simp only [List.cons_append]
  rw [spacePlus_space _ (dayStr_head_not_space d hd2 _)]
  simp only [Option.some_bind]
  exact dayAlts_unpadded d hd1 hd2 (' ' :: pad4 y) _ _ (bdyDayTail_run m d y hy)

theorem parseMDY_none_nondigit (c : Char) (hc : ¬(48 ≤ c.toNat ∧ c.toNat ≤ 57))
    (cs : List Char) : parseMDY (c :: cs) = none := by
  unfold parseMDY
  have h1 : altM1 (c :: cs) = none := by
    cases cs with
    | nil => rfl
    | cons c2 cs2 =>
      simp only [altM1]
      rw [if_neg (show ¬(c.toNat = 49 ∧ 48 ≤ c2.toNat ∧ c2.toNat ≤ 50) from by omega)]
  have h2 : altM2 (c :: cs) = none := by
    cases cs with
    | nil => rfl
    | cons c2 cs2 =>
      simp only [altM2]
      rw [if_neg (show ¬(c.toNat = 48 ∧ 49 ≤ c2.toNat ∧ c2.toNat ≤ 57) from by omega)]
  have h3 : altM3 (c :: cs) = none := by
    simp only [altM3]
    rw [if_neg (show ¬(49 ≤ c.toNat ∧ c.toNat ≤ 57) from by omega)]
  rw [h1, h2, h3]
  rfl

theorem parseBDY_run (y m d : Nat) (hm1 : 1 ≤ m) (hm2 : m ≤ 12)
    (hd1 : 1 ≤ d) (hd2 : d ≤ 31) (hy : y ≤ 9999) :
    parseBDY (monthNameCap m ++ ' ' :: dayStr d ++ ',' :: ' ' :: pad4 y) =
      some (m, d, y) := by
  have hb := bdyFromName_run m d y hd1 hd2 hy
  simp only [List.cons_append] at hb
  interval_cases m <;>
    simp +decide [parseBDY, monthTable, tryNames, stripCI, oalt, monthNameCap,
      Option.none_bind, Option.some_bind, List.cons_append, List.nil_append, hb]

theorem monthNameCap_head_not_space (m : Nat) (hm1 : 1 ≤ m) (hm2 : m ≤ 12)
    (X : List Char) :
    ∀ c, (monthNameCap m ++ X).head? = some c → pyIsSpace c = false := by
  interval_cases m <;>
    (intro c hc
     simp only [monthNameCap, List.cons_append, List.head?_cons,
       Option.some.injEq] at hc
     rw [← hc]
     decide)

theorem mmdd_strip (y m d : Nat) (hm : m ≤ 12) (_hd : d ≤ 31) (_hy : y ≤ 9999) :
    pyStripL (pad2 m ++ '/' :: pad2 d ++ '/' :: pad4 y) =
      pad2 m ++ '/' :: pad2 d ++ '/' :: pad4 y := by
  apply pyStrip_noop
  · intro c hc
    simp only [pad2, List.cons_append, List.head?_cons, Option.some.injEq] at hc
    rw [← hc]
    exact pyIsSpace_digitChar _ (by omega)
  · intro c hc
    rw [show (pad2 m ++ '/' :: pad2 d ++ '/' :: pad4 y : List Char) =
        (pad2 m ++ '/' :: pad2 d ++ '/' :: [digitChar (y / 1000),
          digitChar (y / 100 % 10), digitChar (y / 10 % 10)]) ++
          [digitChar (y % 10)] from by
      simp [pad2, pad4, List.cons_append, List.append_assoc]] at hc
    rw [List.getLast?_append_of_ne_nil _ (by simp)] at hc
    simp only [List.getLast?_singleton, Option.some.injEq] at hc
    rw [← hc]
    exact pyIsSpace_digitChar _ (by omega)

theorem bdy_strip (y m d : Nat) (hm1 : 1 ≤ m) (hm2 : m ≤ 12) (_hd : d ≤ 31)
    (_hy : y ≤ 9999) :
    pyStripL (monthNameCap m ++ ' ' :: dayStr d ++ ',' :: ' ' :: pad4 y) =
      monthNameCap m ++ ' ' :: dayStr d ++ ',' :: ' ' :: pad4 y := by
  apply pyStrip_noop
  · intro c hc
    rw [show ((monthNameCap m ++ ' ' :: dayStr d ++ ',' :: ' ' :: pad4 y) : List Char) =
        monthNameCap m ++ (' ' :: dayStr d ++ ',' :: ' ' :: pad4 y) from by
      simp [List.append_assoc]] at hc
    exact monthNameCap_head_not_space m hm1 hm2 _ c hc
  · intro c hc
    rw [show (monthNameCap m ++ ' ' :: dayStr d ++ ',' :: ' ' :: pad4 y : List Char) =
        (monthNameCap m ++ ' ' :: dayStr d ++ ',' :: ' ' :: [digitChar (y / 1000),
          digitChar (y / 100 % 10), digitChar (y / 10 % 10)]) ++
          [digitChar (y % 10)] from by
      simp [pad4, List.cons_append, List.append_assoc]] at hc
    rw [List.getLast?_append_of_ne_nil _ (by simp)] at hc
    simp only [List.getLast?_singleton, Option.some.injEq] at hc
    rw [← hc]
    exact pyIsSpace_digitChar _ (by omega)

theorem standardize_date_mdy (y m d : Nat) (h : dateOK y m d) :
    standardize_date (mmddyyyyStr y m d) = some (isoStr y m d) := by
  obtain ⟨hy1, hy2, hm1, hm2, hd1, hd2⟩ := h
  have hd31 : d ≤ 31 := Nat.le_trans hd2 (daysInMonth_le_31 y m)
  have hok : dateOK y m d := ⟨hy1, hy2, hm1, hm2, hd1, hd2⟩
  unfold standardize_date
  rw [show (mmddyyyyStr y m d).data =
      pad2 m ++ '/' :: pad2 d ++ '/' :: pad4 y from rfl]
  rw [mmdd_strip y m d (by omega) hd31 (by omega)]
  rw [parseMDY_run y m d hm1 hm2 hd1 hd31 (by omega)]
  simp [oalt, hok]

theorem standardize_date_bdy (y m d : Nat) (h : dateOK y m d) :
    standardize_date (monthDayYearStr y m d) = some (isoStr y m d) := by
  obtain ⟨hy1, hy2, hm1, hm2, hd1, hd2⟩ := h
  have hd31 : d ≤ 31 := Nat.le_trans hd2 (daysInMonth_le_31 y m)
  have hok : dateOK y m d := ⟨hy1, hy2, hm1, hm2, hd1, hd2⟩
  unfold standardize_date
  rw [show (monthDayYearStr y m d).data =
      monthNameCap m ++ ' ' :: dayStr d ++ ',' :: ' ' :: pad4 y from rfl]
  rw [bdy_strip y m d hm1 hm2 hd31 (by omega)]
  have hmdy : parseMDY (monthNameCap m ++ ' ' :: dayStr d ++ ',' :: ' ' :: pad4 y) =
      none := by
    interval_cases m <;>
      (simp only [monthNameCap, List.cons_append]
       exact parseMDY_none_nondigit _ (by decide) _)
  rw [hmdy]
  rw [parseBDY_run y m d hm1 hm2 hd1 hd31 (by omega)]
  simp [oalt, hok]

theorem isoStr_eq_canonical (y m d : Nat) (hy : 1000 ≤ y) :
    isoStr y m d = canonicalYMD y m d := by
  unfold isoStr canonicalYMD yearStr
  rw [if_neg (show ¬y < 10 from by omega), if_neg (show ¬y < 100 from by omega),
    if_neg (show ¬y < 1000 from by omega)]

/-! ### Claim theorems -/

/-- C1: the code's behavior at the claim's input.  For the input whose data
row is `1002,Jane Smith,May 2, 2023,N YC,Met at conference`, the CSV reader
splits the unquoted date at its comma, so the extracted record carries
`date_str = "May 2"` and `location = " 2023"`; the date is unparsable, so
the pipeline's output for this input is empty — not the claimed record
`{Jane Smith, 2023-05-02, New York}`. -/
theorem C1_jane_smith_row :
    extracted_records "Internal ID,Full Name,Signup Date,Region,Notes\n1002,Jane Smith,May 2, 2023,N YC,Met at conference" =
      some [⟨"Jane Smith", "May 2", " 2023"⟩] ∧
    clean_and_structure_data "Internal ID,Full Name,Signup Date,Region,Notes\n1002,Jane Smith,May 2, 2023,N YC,Met at conference" =
      some [] := by
  exact ⟨by decide, by decide⟩

/-- C2 counterexample: on the empty input text the call does not return —
`next(reader)` raises `StopIteration` (modelled as `none`), contradicting
the claim that the pipeline never raises, in particular on empty input. -/
theorem C2_empty_input_raises : clean_and_structure_data "" = none := by
  decide

/-- C2 (amended): for every nonempty input text (one free of carriage
returns and NUL bytes, whose csv errors the embedding does not model), the
pipeline run returns a result list normally; every row-level problem is
absorbed into the row's absence from the output. -/
theorem C2_no_raise_on_nonempty (s : String) (h : s ≠ "")
    (_hch : ∀ c ∈ s.data, c ≠ '\r' ∧ c ≠ Char.ofNat 0) :
    ∃ out, clean_and_structure_data s = some out := by
  unfold clean_and_structure_data
  cases hr : csvRows s with
  | nil => exact absurd hr (csvRows_ne_nil s h)
  | cons hd rows => exact ⟨_, rfl⟩

/-- C2 witness: the amended theorem applied at the one-character input. -/
theorem C2_no_raise_witness : ∃ out, clean_and_structure_data "x" = some out :=
  C2_no_raise_on_nonempty "x" (by decide) (by decide)

/-- C3: the code's behavior on the bundled sample input.  `MESSY_CSV_DATA`
begins with a blank line, so `next(reader)` consumes the blank line as the
"header" and the real header line `Internal ID,Full Name,...` is processed
as a data row, yielding the ExtractedRecord
`{name := "Full Name", date_str := "Signup Date", location := "Region"}` —
the header row is not ignored, contradicting the claim (and the code's own
`# Skip the header row` comment). -/
theorem C3_header_row_extracted :
    extracted_records MESSY_CSV_DATA =
      some [⟨"Full Name", "Signup Date", "Region"⟩,
            ⟨"john doe", "01/05/2023", "New York"⟩,
            ⟨"Jane Smith", "May 2", " 2023"⟩,
            ⟨"peter jones", "03-05-2023", "Chicago"⟩,
            ⟨"Emily White", "June 15", " 2023"⟩,
            ⟨"Sarah Green", "20th of April 2023", "chicago"⟩] := by
  decide

/-- C4 counterexample: the valid calendar date 0023-05-02 written as
`MM/DD/YYYY` is parsed, but strftime `%Y` does not zero-pad, so the result
`23-05-02` is not the canonical four-digit-year form `0023-05-02` the claim
demands. -/
theorem C4_small_year_not_canonical :
    standardize_date "05/02/0023" = some "23-05-02" ∧
    canonicalYMD 23 5 2 = "0023-05-02" ∧
    ("23-05-02" : String) ≠ "0023-05-02" := by
  exact ⟨by decide, by decide, by decide⟩

/-- C4 (amended): for every valid calendar date with a year of at least
1000 (so that `%Y` prints four digits), writing it as `MM/DD/YYYY` or as
`MonthName D, YYYY` and normalizing yields exactly the canonical
`YYYY-MM-DD` string of the same date. -/
theorem C4_date_round_trip (y m d : Nat) (h : dateOK y m d) (hy : 1000 ≤ y) :
    standardize_date (mmddyyyyStr y m d) = some (canonicalYMD y m d) ∧
    standardize_date (monthDayYearStr y m d) = some (canonicalYMD y m d) := by
  rw [← isoStr_eq_canonical y m d hy]
  exact ⟨standardize_date_mdy y m d h, standardize_date_bdy y m d h⟩

/-- C4 witness: the round trip at May 2, 2023 in both input formats. -/
theorem C4_date_round_trip_witness :
    standardize_date (mmddyyyyStr 2023 5 2) = some (canonicalYMD 2023 5 2) ∧
    standardize_date (monthDayYearStr 2023 5 2) = some (canonicalYMD 2023 5 2) :=
  C4_date_round_trip 2023 5 2 (by decide) (by decide)

/-- C5 counterexample: Python's `str.title` puts word boundaries at every
non-letter, so `_format_name "o'neil" = "O'Neil"`, while the claim's
per-whitespace-token rule (uppercase the token's first character,
lowercase the rest of the token) yields `"O'neil"` — the claim fails on
tokens with internal apostrophes. -/
theorem C5_apostrophe_token :
    format_name "o'neil" = "O'Neil" ∧
    specFormatNameWS "o'neil" = "O'neil" ∧
    format_name "o'neil" ≠ specFormatNameWS "o'neil" := by
  exact ⟨by decide, by decide, by decide⟩

/-- C5 (amended): for every input string, `_format_name` returns the input
with leading/trailing whitespace removed and each maximal run of
consecutive ASCII letters transformed by uppercasing its first character
and lowercasing the rest of the run; non-letter characters pass through
and delimit the runs.  Deterministic and total. -/
theorem C5_title_by_letter_runs (s : String) :
    format_name s = specFormatNameRuns s := by
  unfold format_name specFormatNameRuns pyTitle
  rw [titleRuns_eq_pyTitle]
  rfl

/-- C6 counterexample: an input row with date `05/02/0023` yields an output
record whose `signup_date` is `"23-05-02"` — a record in the output whose
date string is not in canonical `YYYY-MM-DD` (four-digit-year) form. -/
theorem C6_small_year_output :
    clean_and_structure_data "h\n1,Al,05/02/0023,X,n" =
      some [⟨"Al", "23-05-02", "X"⟩] ∧
    ("23-05-02" : String) ≠ canonicalYMD 23 5 2 ∧
    canonicalYMD 23 5 2 = "0023-05-02" := by
  exact ⟨by decide, by decide, by decide⟩

/-- C6 (amended): every record in the pipeline's output has a `signup_date`
that is the strftime rendering of a syntactically valid calendar date
(zero-padded month and day, year unpadded — canonical `YYYY-MM-DD` exactly
when the year is at least 1000); a record whose date string cannot be
normalized never appears in the output. -/
theorem C6_output_dates_valid (s : String) (out : List CleanRecord)
    (r : CleanRecord) (h1 : clean_and_structure_data s = some out)
    (h2 : r ∈ out) :
    ∃ y m d, dateOK y m d ∧ r.signup_date = isoStr y m d := by
  unfold clean_and_structure_data at h1
  cases hr : csvRows s with
  | nil =>
    rw [hr] at h1
    cases h1
  | cons hd rows =>
    rw [hr] at h1
    have hout : out = (extractRecs rows).filterMap cleanOne :=
      (Option.some.inj h1).symm
    subst hout
    obtain ⟨a, _ha, hca⟩ := List.mem_filterMap.mp h2
    unfold cleanOne at hca
    cases hsd : standardize_date a.date_str with
    | none =>
      rw [hsd] at hca
      cases hca
    | some dd =>
      rw [hsd] at hca
      simp only [Option.map_some', Option.some.injEq] at hca
      obtain ⟨y, m, d, hok, hdd⟩ := standardize_date_shape _ _ hsd
      refine ⟨y, m, d, hok, ?_⟩
      rw [← hca]
      exact hdd

/-- C6 witness: the invariant at a concrete run and output record. -/
theorem C6_output_dates_valid_witness :
    ∃ y m d, dateOK y m d ∧
      (CleanRecord.mk "Al" "2023-01-05" "X").signup_date = isoStr y m d :=
  C6_output_dates_valid "h\n1,Al,01/05/2023,X,n" [⟨"Al", "2023-01-05", "X"⟩]
    ⟨"Al", "2023-01-05", "X"⟩ (by decide) (by decide)

/-- C7: `_standardize_location` trims its input, returns the mapped value
on an exact, case-sensitive hit in `LOCATION_CORRECTIONS`, and otherwise
returns the trimmed input unchanged; with the bundled table, `"chicago"`
maps to `"Chicago"` while `"Chicago"` is returned unchanged.  Total by
construction. -/
theorem C7_location_corrector :
    (∀ x v, LOCATION_CORRECTIONS.lookup (stripStr x) = some v →
      standardize_location x = v) ∧
    (∀ x, LOCATION_CORRECTIONS.lookup (stripStr x) = none →
      standardize_location x = stripStr x) ∧
    standardize_location "chicago" = "Chicago" ∧
    standardize_location "Chicago" = "Chicago" := by
  refine ⟨?_, ?_, by decide, by decide⟩
  · intro x v hv
    unfold standardize_location
    rw [pyGet_lookup, hv]
    rfl
  · intro x hv
    unfold standardize_location
    rw [pyGet_lookup, hv]
    rfl

/-- C7 witness: the hit case applied at a padded alias. -/
theorem C7_location_corrector_witness :
    standardize_location " N YC " = "New York" :=
  C7_location_corrector.1 " N YC " "New York" (by decide)

/-- C8: when the run returns (the input has a header row), the output is,
in order, the cleaned form of a subsequence of the extracted records, the
extracted records are in turn a subsequence of the per-row extraction over
the data rows (order preserved, no duplication introduced), and
`|output| ≤ |extracted| ≤ |data rows|`. -/
theorem C8_order_and_shrinkage (s : String) (hd : List String)
    (rows : List (List String)) (ext : List ExtractedRecord)
    (out : List CleanRecord) (h0 : csvRows s = hd :: rows)
    (h1 : extracted_records s = some ext)
    (h2 : clean_and_structure_data s = some out) :
    ((out.map some).Sublist (ext.map cleanOne)) ∧
    ((ext.map some).Sublist (rows.map extractRow)) ∧
    out.length ≤ ext.length ∧ ext.length ≤ rows.length := by
  unfold extracted_records at h1
  unfold clean_and_structure_data at h2
  rw [h0] at h1 h2
  have hext : ext = extractRecs rows := (Option.some.inj h1).symm
  subst hext
  have hout : out = (extractRecs rows).filterMap cleanOne :=
    (Option.some.inj h2).symm
  subst hout
  refine ⟨filterMap_map_some_sublist cleanOne _, ?_, ?_, ?_⟩
  · exact filterMap_map_some_sublist extractRow rows
  · exact List.length_filterMap_le _ _
  · exact List.length_filterMap_le _ _

/-- C8 witness: the relations at a concrete two-data-row input, of which
one row survives extraction and cleaning. -/
theorem C8_order_and_shrinkage_witness :
    ((([⟨"A", "2023-01-05", "X"⟩] : List CleanRecord).map some).Sublist
      (([⟨"A", "01/05/2023", "X"⟩] : List ExtractedRecord).map cleanOne)) ∧
    ((([⟨"A", "01/05/2023", "X"⟩] : List ExtractedRecord).map some).Sublist
      (([["1", "A", "01/05/2023", "X", "n"], ["1", "", "x", "y", "z"]]).map extractRow)) ∧
    ([⟨"A", "2023-01-05", "X"⟩] : List CleanRecord).length ≤
      ([⟨"A", "01/05/2023", "X"⟩] : List ExtractedRecord).length ∧
    ([⟨"A", "01/05/2023", "X"⟩] : List ExtractedRecord).length ≤
      ([["1", "A", "01/05/2023", "X", "n"], ["1", "", "x", "y", "z"]]).length :=
  C8_order_and_shrinkage "h\n1,A,01/05/2023,X,n\n1,,x,y,z" ["h"]
    [["1", "A", "01/05/2023", "X", "n"], ["1", "", "x", "y", "z"]]
    [⟨"A", "01/05/2023", "X"⟩] [⟨"A", "2023-01-05", "X"⟩]
    (by decide) (by decide) (by decide)

/-- C9: both field normalizers are idempotent: repeating `_format_name` is
a no-op, and with the bundled corrections table, repeating
`_standardize_location` is a no-op (no table value is itself a key mapped
elsewhere). -/
theorem C9_normalizers_idempotent :
    (∀ x, format_name (format_name x) = format_name x) ∧
    (∀ x, standardize_location (standardize_location x) = standardize_location x) :=
  ⟨format_name_idem, standardize_location_idem⟩

/-- C10: the location field is never required to be non-empty: a data row
with five cells, non-empty name, parsable date and an empty fourth cell
yields an output record whose location is the empty string. -/
theorem C10_empty_location_output :
    clean_and_structure_data "Internal ID,Full Name,Signup Date,Region,Notes\n1001,Bob,01/05/2023,,note" =
      some [⟨"Bob", "2023-01-05", ""⟩] := by
  decide

end DataCleaning

